import Mathlib

/-!
VersionVault core: shallow embedding and verification
=====================================================

This file embeds the storage and comparison core of the VersionVault
repository (`src/core/FileObject.{h,cpp}`, `src/core/DiffEngine.{h,cpp}`,
`src/core/ObjectStore.{h,cpp}`) into Lean 4 and settles the frozen claims
about it.

Modelling conventions:
* machine bytes are `Nat` (values `0..255`); file contents are `List Nat`;
* C++ `std::string` values used as text (paths, hashes, diff lines) are Lean
  `String`;
* the filesystem is an association list from paths to byte lists; `std::map`
  (ordered, used by `StoragePool` and the hash-to-path index) is an
  association list kept sorted by key, so that `pool.erase(pool.begin())`
  is `List.tail`;
* the OpenSSL `SHA256` call is embedded as an executable SHA-256
  implementation over byte lists (constants derived from the first 64
  primes, exactly as in FIPS 180-4);
* `double` arithmetic in `DiffEngine::calculateSimilarity` is modelled
  exactly over `ℚ` (the integer DP table is exact in both worlds);
* C++ exceptions (`std::runtime_error` on unreadable/unwritable files) are
  `Except Unit`.
-/

/-! ## SHA-256 over byte lists (the OpenSSL `SHA256` call in the source) -/

/-- 2^32, the word modulus of SHA-256. -/
def pow32 : Nat := 4294967296

/-- Rotate a 32-bit word right by `n`. -/
def rotr (n x : Nat) : Nat := ((x >>> n) ||| (x <<< (32 - n))) % pow32

/-- Bitwise complement within 32 bits. -/
def bnot32 (x : Nat) : Nat := x ^^^ (pow32 - 1)

/-- The `Ch` function of FIPS 180-4. -/
def chFun (e f g : Nat) : Nat := (e &&& f) ^^^ (bnot32 e &&& g)

/-- The `Maj` function of FIPS 180-4. -/
def majFun (a b c : Nat) : Nat := (a &&& b) ^^^ (a &&& c) ^^^ (b &&& c)

/-- Σ₀ of FIPS 180-4. -/
def bigS0 (a : Nat) : Nat := rotr 2 a ^^^ rotr 13 a ^^^ rotr 22 a

/-- Σ₁ of FIPS 180-4. -/
def bigS1 (e : Nat) : Nat := rotr 6 e ^^^ rotr 11 e ^^^ rotr 25 e

/-- σ₀ of FIPS 180-4. -/
def smallS0 (x : Nat) : Nat := rotr 7 x ^^^ rotr 18 x ^^^ (x >>> 3)

/-- σ₁ of FIPS 180-4. -/
def smallS1 (x : Nat) : Nat := rotr 17 x ^^^ rotr 19 x ^^^ (x >>> 10)

/-- The first 64 primes, whose cube/square root fractional parts supply the
SHA-256 round and initialisation constants. -/
def first64Primes : List Nat :=
  [2, 3, 5, 7, 11, 13, 17, 19, 23, 29, 31, 37, 41, 43, 47, 53,
   59, 61, 67, 71, 73, 79, 83, 89, 97, 101, 103, 107, 109, 113, 127, 131,
   137, 139, 149, 151, 157, 163, 167, 173, 179, 181, 191, 193, 197, 199, 211, 223,
   227, 229, 233, 239, 241, 251, 257, 263, 269, 271, 277, 281, 283, 293, 307, 311]

/-- Bit-by-bit integer cube root accumulator. -/
def icbrtAux : Nat → Nat → Nat → Nat
  | 0, _, r => r
  | fuel + 1, n, r =>
      let c := r + (1 <<< fuel)
      icbrtAux fuel n (if c * c * c ≤ n then c else r)

/-- Integer cube root (floor), for inputs below `2^192`. -/
def icbrt (n : Nat) : Nat := icbrtAux 64 n 0

/-- The 64 SHA-256 round constants: the first 32 bits of the fractional parts
of the cube roots of the first 64 primes. -/
def roundConsts : List Nat := first64Primes.map (fun p => icbrt (p <<< 96) % pow32)

/-- The 8 SHA-256 initial hash words: first 32 bits of the fractional parts of
the square roots of the first 8 primes. -/
def initHash : List Nat := (first64Primes.take 8).map (fun p => Nat.sqrt (p <<< 64) % pow32)

/-- SHA-256 padding: a `0x80` byte, zeros, and the 64-bit big-endian bit
length, bringing the message to a multiple of 64 bytes. -/
def padMessage (msg : List Nat) : List Nat :=
  let bitLen := msg.length * 8
  let zeros := (64 - ((msg.length + 9) % 64)) % 64
  msg ++ [128] ++ List.replicate zeros 0 ++
    (List.range 8).map (fun i => (bitLen >>> (8 * (7 - i))) % 256)

/-- Split a byte list into 64-byte chunks (fuel-driven, fuel ≥ list length). -/
def chunksAux : Nat → List Nat → List (List Nat)
  | 0, _ => []
  | _ + 1, [] => []
  | fuel + 1, l => l.take 64 :: chunksAux fuel (l.drop 64)

/-- Big-endian 4-byte groups to 32-bit words. -/
def bytesToWords : List Nat → List Nat
  | b0 :: b1 :: b2 :: b3 :: rest =>
      (((b0 * 256 + b1) * 256 + b2) * 256 + b3) :: bytesToWords rest
  | _ => []

/-- Message-schedule extension; the accumulator keeps the schedule reversed
(most recent word first). -/
def extendW : Nat → List Nat → List Nat
  | 0, ws => ws
  | n + 1, ws =>
      extendW n
        (((smallS1 (ws.getD 1 0) + ws.getD 6 0 + smallS0 (ws.getD 14 0) + ws.getD 15 0)
          % pow32) :: ws)

/-- One SHA-256 round on the state `[a,b,c,d,e,f,g,h]` with constant `k` and
schedule word `w`. -/
def sha256Round (st : List Nat) (k w : Nat) : List Nat :=
  match st with
  | [a, b, c, d, e, f, g, h] =>
      let t1 := (h + bigS1 e + chFun e f g + k + w) % pow32
      let t2 := (bigS0 a + majFun a b c) % pow32
      [(t1 + t2) % pow32, a, b, c, (d + t1) % pow32, e, f, g]
  | other => other

/-- Compress one 64-byte block into the running hash state. -/
def processBlock (st : List Nat) (block : List Nat) : List Nat :=
  let ws := (extendW 48 (bytesToWords block).reverse).reverse
  let st1 := (roundConsts.zip ws).foldl (fun s kw => sha256Round s kw.1 kw.2) st
  (st.zip st1).map (fun p => (p.1 + p.2) % pow32)

/-- The eight 32-bit words of the SHA-256 digest of a byte list. -/
def sha256Words (msg : List Nat) : List Nat :=
  (chunksAux (padMessage msg).length (padMessage msg)).foldl processBlock initHash

/-- A lowercase hex digit. -/
def hexDigit (d : Nat) : Char := Char.ofNat (if d < 10 then 48 + d else 87 + d)

/-- Eight lowercase hex digits of a 32-bit word, most significant first. -/
def wordHex (w : Nat) : List Char :=
  (List.range 8).map (fun i => hexDigit ((w >>> (4 * (7 - i))) % 16))

/-- The SHA-256 digest as the 64-character lowercase hex string the source
builds with `std::setw(2) << std::setfill('0') << std::hex`. -/
def sha256Hex (msg : List Nat) : String :=
  ((sha256Words msg).foldr (fun w acc => wordHex w ++ acc) []).asString

/-! ## Text line handling (`std::getline` splitting and `"\n"` rejoining) -/

/-- One `std::getline` loop step: `cur` holds the (reversed) bytes of the line
being read. A newline emits the line; end of input emits the final partial
line (as `std::getline` succeeds when it reads at least one byte before EOF,
and the loop stops at the next call). -/
def splitLinesAux : List Nat → List Nat → List (List Nat)
  | [], cur => [cur.reverse]
  | b :: rest, cur =>
      if b = 10 then
        cur.reverse :: (if rest = [] then [] else splitLinesAux rest [])
      else
        splitLinesAux rest (b :: cur)

/-- The line sequence `TextFile::readContent` produces from raw file bytes:
repeated `std::getline` on `'\n'` (carriage returns are kept — plain
`ifstream` on the platform the source targets does no translation). An empty
file yields no lines. -/
def splitLines (bs : List Nat) : List (List Nat) :=
  if bs = [] then [] else splitLinesAux bs []

/-- Rejoin lines the way `TextFile::readContent` / `TextFile::computeHash`
do: every line is followed by one `'\n'`. -/
def joinLines (ls : List (List Nat)) : List Nat :=
  ls.foldr (fun l acc => l ++ 10 :: acc) []

/-! ## `FileObject` (text / binary file abstraction) -/

/-- A `FileObject`: `filepath`, the cached `hash` (`""` when never computed),
the `isModified` dirty flag, and the variant content (`lines` for `TextFile`,
`fileSize`/`data` for `BinaryFile`). The constant `encoding` field of
`TextFile` carries no behaviour and is omitted. -/
inductive FileObject where
  | text (filepath : String) (hash : String) (modified : Bool) (lines : List (List Nat))
  | binary (filepath : String) (hash : String) (modified : Bool) (fileSize : Nat)
      (data : List Nat)
  deriving DecidableEq, Repr

/-- `FileObject::getPath`. -/
def FileObject.getPath : FileObject → String
  | .text p _ _ _ => p
  | .binary p _ _ _ _ => p

/-- The cached hash field. -/
def FileObject.hashVal : FileObject → String
  | .text _ h _ _ => h
  | .binary _ h _ _ _ => h

/-- The `isModified` dirty flag. -/
def FileObject.dirtyFlag : FileObject → Bool
  | .text _ _ m _ => m
  | .binary _ _ m _ _ => m

/-- The in-memory line sequence of a `TextFile` (`[]` for binary files). -/
def FileObject.textLines : FileObject → List (List Nat)
  | .text _ _ _ ls => ls
  | .binary _ _ _ _ _ => []

/-- The in-memory byte buffer of a `BinaryFile` (`[]` for text files). -/
def FileObject.binData : FileObject → List Nat
  | .text _ _ _ _ => []
  | .binary _ _ _ _ d => d

/-- `TextFile::computeHash` / `BinaryFile::computeHash`: SHA-256 hex digest
of the newline-rejoined lines (text) or of the raw buffer (binary). -/
def computeHash : FileObject → String
  | .text _ _ _ ls => sha256Hex (joinLines ls)
  | .binary _ _ _ _ d => sha256Hex d

/-- `FileObject::getHash`: return the cached digest unless it is absent or the
dirty flag is set; otherwise recompute from the current in-memory content,
cache it, and clear the flag. Returns the digest and the updated object. -/
def getHash (o : FileObject) : String × FileObject :=
  match o with
  | .text p h m ls =>
      if h = "" ∨ m = true then (computeHash o, .text p (computeHash o) false ls)
      else (h, o)
  | .binary p h m sz d =>
      if h = "" ∨ m = true then (computeHash o, .binary p (computeHash o) false sz d)
      else (h, o)

/-- The filesystem: an association list from paths to byte contents. -/
abbrev Fsys : Type := List (String × List Nat)

/-- First-match association lookup. -/
def assocFind {α : Type} (k : String) : List (String × α) → Option α
  | [] => none
  | e :: rest => if e.1 = k then some e.2 else assocFind k rest

/-- Overwrite-or-append filesystem write. -/
def fsWrite (fs : Fsys) (p : String) (b : List Nat) : Fsys :=
  match fs with
  | [] => [(p, b)]
  | e :: rest => if e.1 = p then (p, b) :: rest else e :: fsWrite rest p b

/-- `readContent`: text files run the `std::getline` loop, *replace* the
in-memory lines, and return the rejoined bytes; binary files read the raw
bytes, store them and the file size, and return them. A missing file is the
thrown `std::runtime_error`. -/
def readContent (fs : Fsys) : FileObject → Except Unit (List Nat × FileObject)
  | .text p h m _ =>
      match assocFind p fs with
      | none => .error ()
      | some b =>
          let nl := splitLines b
          .ok (joinLines nl, .text p h m nl)
  | .binary p h m _ _ =>
      match assocFind p fs with
      | none => .error ()
      | some b => .ok (b, .binary p h m b.length b)

/-- `writeContent`: write the given bytes to the backing path and set the
dirty flag. `TextFile::writeContent` leaves the in-memory `lines` unchanged;
`BinaryFile::writeContent` replaces `data` (but not `fileSize`). The model
filesystem write always succeeds. -/
def writeContent (fs : Fsys) (o : FileObject) (d : List Nat) : Fsys × FileObject :=
  match o with
  | .text p h _ ls => (fsWrite fs p d, .text p h true ls)
  | .binary p h _ sz _ => (fsWrite fs p d, .binary p h true sz d)

/-- `TextFile::getLines`: load from the backing file on first access (when
the line list is empty), otherwise return the in-memory lines. -/
def getLines (fs : Fsys) (o : FileObject) : Except Unit (List (List Nat) × FileObject) :=
  match o with
  | .text p h m ls =>
      if ls = [] then
        match readContent fs (.text p h m ls) with
        | .error e => .error e
        | .ok (_, o1) => .ok (o1.textLines, o1)
      else .ok (ls, o)
  | .binary _ _ _ _ _ => .error ()

/-- `FileFactory::detectBinary`: a null byte within the first 512 bytes means
binary; an unopenable file counts as text. -/
def detectBinary (fs : Fsys) (p : String) : Bool :=
  match assocFind p fs with
  | none => false
  | some b => (b.take 512).any (fun x => x = 0)

/-- `FileFactory::createFileObject`: classify by `detectBinary` and construct
a fresh object (content not yet loaded). -/
def createFileObject (fs : Fsys) (p : String) : FileObject :=
  if detectBinary fs p then .binary p "" false 0 [] else .text p "" false []

/-! ## `ObjectStore` (sharded content-addressed store with bounded cache) -/

/-- `std::string::operator<`: lexicographic comparison, character by
character (UTF-8 byte order and code-point order agree). -/
def strLt (a b : String) : Bool := go a.data b.data where
  go : List Char → List Char → Bool
    | _, [] => false
    | [], _ :: _ => true
    | x :: xs, y :: ys => if x < y then true else if y < x then false else go xs ys

/-- Insert-or-assign into an association list kept sorted by key — the
behaviour of `std::map::operator[]`. -/
def insertSorted {α : Type} (k : String) (v : α) : List (String × α) → List (String × α)
  | [] => [(k, v)]
  | e :: rest =>
      if strLt k e.1 then (k, v) :: e :: rest
      else if k = e.1 then (k, v) :: rest
      else e :: insertSorted k v rest

/-- `StoragePool::store`: when the pool is at (or beyond) capacity, erase
`pool.begin()` — the smallest key of the ordered map, i.e. the head of the
sorted association list — then insert-or-assign the new entry. -/
def poolStore {α : Type} (maxSize : Nat) (pool : List (String × α)) (k : String) (v : α) :
    List (String × α) :=
  insertSorted k v (if maxSize ≤ pool.length then pool.tail else pool)

/-- The whole mutable world: the filesystem plus the `ObjectStore` singleton's
state (`storePath`, the bounded `objectPool` with its capacity — 2000 in
`ObjectStore::ObjectStore` — and the `hashToPath` reverse index). -/
structure World where
  fs : Fsys
  storePath : String
  poolMax : Nat
  pool : List (String × List Nat)
  hashToPath : List (String × String)
  deriving DecidableEq, Repr

/-- `hash.substr(0, n)` on an ASCII hash string. -/
def substrLen (s : String) (n : Nat) : String := (s.data.take n).asString

/-- `hash.substr(n)` on an ASCII hash string. -/
def substrFrom (s : String) (n : Nat) : String := (s.data.drop n).asString

/-- `ObjectStore::getObjectPath`: `<root>/<hash[0:2]>/<hash[2:]>`. -/
def objectPath (w : World) (h : String) : String :=
  w.storePath ++ "/" ++ substrLen h 2 ++ "/" ++ substrFrom h 2

/-- `ObjectStore::hasObject`: in the pool or on disk; mutates nothing. -/
def hasObject (w : World) (h : String) : Bool :=
  (assocFind h w.pool).isSome || (assocFind (objectPath w h) w.fs).isSome

/-- `ObjectStore::storeObject`: take the object's (possibly cached) hash;
if an object with that hash already exists, return the hash without any
mutation. Otherwise read the full content (which may throw), put it in the
bounded pool, write the sharded blob, record `hashToPath[hash] = path`, and
return the hash. Directory creation has no observable effect in the model. -/
def storeObject (w : World) (o : FileObject) : Except Unit (String × World × FileObject) :=
  let hp := getHash o
  if hasObject w hp.1 then .ok (hp.1, w, hp.2)
  else
    match readContent w.fs hp.2 with
    | .error e => .error e
    | .ok (c, o2) =>
        .ok (hp.1,
          { w with
            pool := poolStore w.poolMax w.pool hp.1 c
            fs := fsWrite w.fs (objectPath w hp.1) c
            hashToPath := insertSorted hp.1 o2.getPath w.hashToPath },
          o2)

/-- `ObjectStore::retrieveObject`: pool hit → rebuild a `FileObject` at the
recorded origin path (placeholder `"temp"` when unknown), classified by
`FileFactory` *before* `writeContent` overwrites that path with the blob
bytes. Pool miss → look for the sharded blob; if present, read it, backfill
the pool, and rebuild the same way; otherwise return nothing. -/
def retrieveObject (w : World) (h : String) : Option FileObject × World :=
  match assocFind h w.pool with
  | some c =>
      let p := (assocFind h w.hashToPath).getD "temp"
      let o := createFileObject w.fs p
      let r := writeContent w.fs o c
      (some r.2, { w with fs := r.1 })
  | none =>
      match assocFind (objectPath w h) w.fs with
      | none => (none, w)
      | some c =>
          let pool1 := poolStore w.poolMax w.pool h c
          let p := (assocFind h w.hashToPath).getD "temp"
          let o := createFileObject w.fs p
          let r := writeContent w.fs o c
          (some r.2, { w with pool := pool1, fs := r.1 })

/-- `a` starts with `b` (byte-wise). -/
def strStarts (b a : String) : Bool := go b.data a.data where
  go : List Char → List Char → Bool
    | [], _ => true
    | _ :: _, [] => false
    | x :: xs, y :: ys => x = y && go xs ys

/-- `ObjectStore::getStorageSize`: total size of the regular files under the
store root (the recursive directory walk reaches exactly the paths below
`storePath ++ "/"`). -/
def getStorageSize (w : World) : Nat :=
  (w.fs.filter (fun e => strStarts (w.storePath ++ "/") e.1)).foldl
    (fun acc e => acc + e.2.length) 0

/-! ## `DiffEngine` -/

/-- `ChangeType`. -/
inductive ChangeType where
  | ADDED | REMOVED | MODIFIED | UNCHANGED
  deriving DecidableEq, Repr

/-- The `Change` value; the two-argument constructor of the source leaves
`oldHash`/`newHash` as the default-constructed empty string. -/
structure Change where
  type : ChangeType
  path : String
  oldHash : String := ""
  newHash : String := ""
  deriving DecidableEq, Repr

/-- `DiffEngine::compareFiles` (null pointers are `none`). The source also
caches hashes inside the two objects as a side effect of `getHash`; the
returned `Change` — the subject of the specification — is unaffected, so the
model returns it alone. -/
def compareFiles : Option FileObject → Option FileObject → Change
  | none, none => { type := .UNCHANGED, path := "" }
  | none, some nf => { type := .ADDED, path := nf.getPath, newHash := (getHash nf).1 }
  | some of, none => { type := .REMOVED, path := of.getPath, oldHash := (getHash of).1 }
  | some of, some nf =>
      let oldh := (getHash of).1
      let newh := (getHash nf).1
      if oldh = newh then { type := .UNCHANGED, path := of.getPath, oldHash := oldh, newHash := newh }
      else { type := .MODIFIED, path := of.getPath, oldHash := oldh, newHash := newh }

/-- The two-pointer merge loop of `SimpleDiff::computeDiff`, with the
`while (i < old.size() || j < new.size())` loop driven by fuel (one line is
consumed per iteration, so `oldLines.length + newLines.length` iterations
always suffice): equal heads emit a context line and advance both sides; an
exhausted new side, or an old head sorting lexicographically first, emits a
removal and advances the old side; otherwise an addition advances the new
side. -/
def mergeLoopF : Nat → List String → List String → List String
  | 0, _, _ => []
  | fuel + 1, oldLines, newLines =>
      match oldLines, newLines with
      | [], [] => []
      | x :: xs, [] => ("-" ++ x) :: mergeLoopF fuel xs []
      | [], y :: ys => ("+" ++ y) :: mergeLoopF fuel [] ys
      | x :: xs, y :: ys =>
          if x = y then (" " ++ x) :: mergeLoopF fuel xs ys
          else if strLt x y then ("-" ++ x) :: mergeLoopF fuel xs (y :: ys)
          else ("+" ++ y) :: mergeLoopF fuel (x :: xs) ys

/-- The merge loop at its exact fuel bound. -/
def mergeLoop (oldLines newLines : List String) : List String :=
  mergeLoopF (oldLines.length + newLines.length) oldLines newLines

/-- `SimpleDiff::computeDiff`: the `--- old` / `+++ new` header lines,
followed by the greedy two-pointer merge of the two line sequences. -/
def SimpleDiff.computeDiff (oldLines newLines : List String) : List String :=
  "--- old" :: "+++ new" :: mergeLoop oldLines newLines

/-- One inner-loop step of the Wagner–Fischer table in
`DiffEngine::calculateSimilarity`: `left` is `dp[i][j-1]`, `p0 :: p1 :: _`
are `dp[i-1][j-1] :: dp[i-1][j] :: _`, and `d :: _` the remaining characters
of `text2`. Produces the entries `dp[i][1..n]`. -/
def rowStep (c : Char) : Nat → List Char → List Nat → List Nat
  | left, d :: ds, p0 :: p1 :: ps =>
      let e := if c = d then p0 else 1 + min p1 (min left p0)
      e :: rowStep c e ds (p1 :: ps)
  | _, _, _ => []

/-- The outer loop of the DP table: build row `i` from row `i-1` for each
character of `text1`, keeping only the last row (row `i` starts with
`dp[i][0] = i`). -/
def lastRow (t : List Char) : List Char → Nat → List Nat → List Nat
  | [], _, prev => prev
  | c :: cs, i, prev => lastRow t cs (i + 1) (i :: rowStep c i t prev)

/-- `dp[m][n]` of `DiffEngine::calculateSimilarity`: the final cell of the
edit-distance table (first row `0..n`). -/
def editDistance (s t : List Char) : Nat :=
  (lastRow t s 1 (List.range (t.length + 1))).getLastD 0

/-- `DiffEngine::calculateSimilarity`, with `double` arithmetic carried out
exactly in `ℚ`: the empty-input shortcuts, then
`1 - distance / max(m, n)`. -/
def calculateSimilarity (text1 text2 : String) : ℚ :=
  let m := text1.length
  let n := text2.length
  if m = 0 ∧ n = 0 then 1
  else if m = 0 ∨ n = 0 then 0
  else 1 - (editDistance text1.data text2.data : ℚ) / ((max m n : Nat) : ℚ)

/-- Modelled from the spec: the standard unit-cost Levenshtein distance, by
the textbook recursion on first characters (deletion, insertion,
substitution). This is the reference definition claim C6 compares the
source's DP table against. -/
def levenshteinSpec : List Char → List Char → Nat
  | [], ys => ys.length
  | x :: xs, [] => (x :: xs).length
  | x :: xs, y :: ys =>
      if x = y then levenshteinSpec xs ys
      else 1 + min (levenshteinSpec xs (y :: ys))
               (min (levenshteinSpec (x :: xs) ys) (levenshteinSpec xs ys))

/-! ## Basic lemmas about the association-list operations -/

/-- Writing a path makes it readable with exactly the written bytes. -/
theorem assocFind_fsWrite_self (fs : Fsys) (p : String) (b : List Nat) :
    assocFind p (fsWrite fs p b) = some b := by
  induction fs with
  | nil => simp [fsWrite, assocFind]
  | cons e rest ih =>
      by_cases he : e.1 = p
      · simp [fsWrite, he, assocFind]
      · simp [fsWrite, he, assocFind, ih]

/-- `strLt.go` is irreflexive. -/
theorem strLtGo_irrefl : ∀ xs : List Char, strLt.go xs xs = false := by
  intro xs
  induction xs with
  | nil => rfl
  | cons x xs ih => simp [strLt.go, lt_irrefl, ih]

/-- `strLt` is irreflexive, as `std::string::operator<` is. -/
theorem strLt_irrefl (a : String) : strLt a a = false := by
  unfold strLt
  exact strLtGo_irrefl a.data

/-- Insert-or-assign makes the inserted key readable with the new value. -/
theorem assocFind_insertSorted_self {α : Type} (k : String) (v : α)
    (l : List (String × α)) : assocFind k (insertSorted k v l) = some v := by
  induction l with
  | nil => simp [insertSorted, assocFind]
  | cons e rest ih =>
      by_cases hlt : strLt k e.1 = true
      · simp [insertSorted, hlt, assocFind]
      · by_cases heq : k = e.1
        · simp [insertSorted, hlt, heq, assocFind, strLt_irrefl]
        · have : e.1 ≠ k := fun hh => heq hh.symm
          simp [insertSorted, hlt, heq, assocFind, this, ih]

/-- A successful association lookup returns an entry of the list. -/
theorem assocFind_mem {α : Type} (k : String) (v : α) :
    ∀ l : List (String × α), assocFind k l = some v → (k, v) ∈ l := by
  intro l
  induction l with
  | nil => simp [assocFind]
  | cons e rest ih =>
      by_cases he : e.1 = k
      · simp [assocFind, he]
        intro hv
        left
        cases e
        simp_all
      · simp [assocFind, he]
        intro hv
        exact Or.inr (ih hv)

/-- Insert-or-assign grows the list by at most one entry. -/
theorem insertSorted_length {α : Type} (k : String) (v : α) :
    ∀ l : List (String × α), (insertSorted k v l).length ≤ l.length + 1 := by
  intro l
  induction l with
  | nil => simp [insertSorted]
  | cons e rest ih =>
      by_cases hlt : strLt k e.1 = true
      · simp [insertSorted, hlt]
      · by_cases heq : k = e.1
        · simp [insertSorted, hlt, heq, strLt_irrefl]
        · simp only [insertSorted, if_neg hlt, if_neg heq, List.length_cons]
          omega

/-- What `writeContent` does to the object rebuilt by the factory, whatever
the detection outcome was. -/
theorem writeContent_create (fs : Fsys) (p : String) (c : List Nat) :
    (writeContent fs (createFileObject fs p) c).1 = fsWrite fs p c ∧
    (writeContent fs (createFileObject fs p) c).2.dirtyFlag = true ∧
    (writeContent fs (createFileObject fs p) c).2.getPath = p := by
  unfold createFileObject
  cases detectBinary fs p <;>
    simp [writeContent, FileObject.dirtyFlag, FileObject.getPath]

/-! ## Claim C2: `compareFiles` classification -/

/-- C2: `compareFiles` classifies exactly by the specified rules: both absent
gives `Unchanged` with empty path (and empty hashes, no dereference); old
absent / new present gives `Added` carrying the new file's hash; new absent /
old present gives `Removed`; both present compare hashes, equal giving
`Unchanged` and different giving `Modified`. -/
theorem claimC2_compareFiles :
    (compareFiles none none
        = { type := .UNCHANGED, path := "", oldHash := "", newHash := "" }) ∧
    (∀ nf, compareFiles none (some nf)
        = { type := .ADDED, path := nf.getPath, oldHash := "", newHash := (getHash nf).1 }) ∧
    (∀ fo, compareFiles (some fo) none
        = { type := .REMOVED, path := fo.getPath, oldHash := (getHash fo).1, newHash := "" }) ∧
    (∀ fo nf, (getHash fo).1 = (getHash nf).1 →
        compareFiles (some fo) (some nf)
          = { type := .UNCHANGED, path := fo.getPath,
              oldHash := (getHash fo).1, newHash := (getHash nf).1 }) ∧
    (∀ fo nf, (getHash fo).1 ≠ (getHash nf).1 →
        compareFiles (some fo) (some nf)
          = { type := .MODIFIED, path := fo.getPath,
              oldHash := (getHash fo).1, newHash := (getHash nf).1 }) := by
  refine ⟨rfl, fun nf => rfl, fun fo => rfl, fun fo nf he => ?_, fun fo nf hne => ?_⟩
  · simp [compareFiles, he]
  · simp [compareFiles, hne]

/-- Concrete instantiation of C2's two hypothesis-bearing cases (equal and
different cached hashes). -/
theorem claimC2_compareFiles_witness :
    ((getHash (FileObject.text "a" "h1" false [])).1
        = (getHash (FileObject.text "b" "h1" false [])).1 ∧
      compareFiles (some (FileObject.text "a" "h1" false []))
          (some (FileObject.text "b" "h1" false []))
        = { type := .UNCHANGED, path := "a", oldHash := "h1", newHash := "h1" }) ∧
    ((getHash (FileObject.text "a" "h1" false [])).1
        ≠ (getHash (FileObject.text "b" "h2" false [])).1 ∧
      compareFiles (some (FileObject.text "a" "h1" false []))
          (some (FileObject.text "b" "h2" false []))
        = { type := .MODIFIED, path := "a", oldHash := "h1", newHash := "h2" }) := by
  constructor
  · refine ⟨by decide, ?_⟩
    have := claimC2_compareFiles.2.2.2.1 (FileObject.text "a" "h1" false [])
      (FileObject.text "b" "h1" false []) (by decide)
    simpa using this
  · refine ⟨by decide, ?_⟩
    have := claimC2_compareFiles.2.2.2.2 (FileObject.text "a" "h1" false [])
      (FileObject.text "b" "h2" false []) (by decide)
    simpa using this

/-! ## Claim C5: the end-to-end line diff -/

/-- C5, counterexample: on `["foo","bar"]` vs `["foo","baz"]` the diff is not
the bare `[" foo", "-bar", "+baz"]` — `SimpleDiff::computeDiff` first pushes
the two header lines `--- old` and `+++ new`. -/
theorem claimC5_lineDiff_counterexample :
    SimpleDiff.computeDiff ["foo", "bar"] ["foo", "baz"]
      ≠ [" foo", "-bar", "+baz"] := by
  have h : SimpleDiff.computeDiff ["foo", "bar"] ["foo", "baz"]
      = ["--- old", "+++ new", " foo", "-bar", "+baz"] := by decide
  rw [h]
  decide

/-- C5, amended: the line diff of `["foo","bar"]` vs `["foo","baz"]` is the
two header lines followed by exactly `" foo"`, `"-bar"`, `"+baz"`, in that
order, with context/removal/addition marked `" "`/`"-"`/`"+"`. -/
theorem claimC5_lineDiff :
    SimpleDiff.computeDiff ["foo", "bar"] ["foo", "baz"]
      = ["--- old", "+++ new", " foo", "-bar", "+baz"] := by decide

/-! ## Claim C9: `writeContent` -/

/-- C9, counterexample: for a text instance, `writeContent` leaves the
in-memory line content unchanged (it does not become the written bytes), so
the next `getHash` recomputes the digest from the stale lines, not from the
newly written content. -/
theorem claimC9_writeContent_counterexample :
    ((writeContent [("f", [])] (FileObject.text "f" "h1" false [[97]]) [98, 10]).2.textLines
        = [[97]]) ∧
    splitLines [98, 10] = [[98]] ∧ ([[97]] : List (List Nat)) ≠ [[98]] ∧
    ((getHash (writeContent [("f", [])] (FileObject.text "f" "h1" false [[97]]) [98, 10]).2).1
        = sha256Hex (joinLines [[97]])) ∧
    joinLines [[97]] ≠ [98, 10] :=
  ⟨rfl, by decide, by decide, rfl, by decide⟩

/-- C9, amended: a (always-successful in the model) `writeContent` persists
the bytes to the backing path and sets the dirty flag; a binary instance also
replaces its in-memory buffer with the written bytes, so its next `getHash`
is the digest of the new content, while a text instance keeps its previous
in-memory lines, so its next `getHash` is the digest of those stale lines. -/
theorem claimC9_writeContent :
    (∀ fs p h m ls (d : List Nat),
        writeContent fs (FileObject.text p h m ls) d
          = (fsWrite fs p d, FileObject.text p h true ls)) ∧
    (∀ fs p h m sz dt (d : List Nat),
        writeContent fs (FileObject.binary p h m sz dt) d
          = (fsWrite fs p d, FileObject.binary p h true sz d)) ∧
    (∀ fs p (d : List Nat), assocFind p (fsWrite fs p d) = some d) ∧
    (∀ p h ls, (getHash (FileObject.text p h true ls)).1 = sha256Hex (joinLines ls)) ∧
    (∀ p h sz (d : List Nat),
        (getHash (FileObject.binary p h true sz d)).1 = sha256Hex d) := by
  refine ⟨fun fs p h m ls d => rfl, fun fs p h m sz dt d => rfl,
    assocFind_fsWrite_self, fun p h ls => ?_, fun p h sz d => ?_⟩
  · simp [getHash, computeHash]
  · simp [getHash, computeHash]

/-! ## Claim C3: `getHash` and lazy loading -/

/-- C3, counterexample: a `TextFile` freshly created from a path whose
backing file holds `"foo\n"` answers its first `getHash` *without* loading
the backing content — afterwards its line content is still empty, and the
digest it returned is the digest of the empty canonical content, not of the
backing file's canonicalized bytes. -/
theorem claimC3_getHash_counterexample :
    assocFind "f" [("f", [102, 111, 111, 10])] = some [102, 111, 111, 10] ∧
    ((getHash (FileObject.text "f" "" false [])).2.textLines = []) ∧
    splitLines [102, 111, 111, 10] = [[102, 111, 111]] ∧
    ([[102, 111, 111]] : List (List Nat)) ≠ [] ∧
    ((getHash (FileObject.text "f" "" false [])).1 = sha256Hex (joinLines [])) ∧
    joinLines [] ≠ joinLines [[102, 111, 111]] :=
  ⟨rfl, rfl, by decide, by decide, rfl, by decide⟩

/-- C3, amended: the backing content is loaded on the first *read* (content
or line access), not on a hash request; `getHash` with a cached digest and a
clear dirty flag returns the cached digest and changes nothing, and otherwise
recomputes the SHA-256 hex digest of the canonicalized *current in-memory*
content, caches it, and clears the dirty flag. -/
theorem claimC3_getHash :
    (∀ o : FileObject, o.hashVal ≠ "" → o.dirtyFlag = false → getHash o = (o.hashVal, o)) ∧
    (∀ o : FileObject, o.hashVal = "" ∨ o.dirtyFlag = true →
        (getHash o).1 = computeHash o ∧ (getHash o).2.hashVal = computeHash o ∧
        (getHash o).2.dirtyFlag = false) ∧
    (∀ p h m ls, computeHash (FileObject.text p h m ls) = sha256Hex (joinLines ls)) ∧
    (∀ p h m sz d, computeHash (FileObject.binary p h m sz d) = sha256Hex d) ∧
    (∀ fs p h m b, assocFind p fs = some b →
        getLines fs (FileObject.text p h m [])
            = .ok (splitLines b, FileObject.text p h m (splitLines b)) ∧
        readContent fs (FileObject.text p h m [])
            = .ok (joinLines (splitLines b), FileObject.text p h m (splitLines b))) := by
  refine ⟨fun o hh hm => ?_, fun o hor => ?_, fun p h m ls => rfl, fun p h m sz d => rfl,
    fun fs p h m b hb => ?_⟩
  · cases o <;> simp_all [getHash, FileObject.hashVal, FileObject.dirtyFlag]
  · cases o <;>
      rcases hor with hor | hor <;>
      simp_all [getHash, FileObject.hashVal, FileObject.dirtyFlag]
  · constructor
    · simp [getLines, readContent, hb, FileObject.textLines]
    · simp [readContent, hb]

/-- Concrete instantiation of C3's amended statement: a cached clean hash is
returned as-is; a dirty object recomputes and clears the flag; a fresh text
object loads its lines on first `getLines`. -/
theorem claimC3_getHash_witness :
    ((FileObject.text "f" "h1" false [[97]]).hashVal ≠ "" ∧
      (FileObject.text "f" "h1" false [[97]]).dirtyFlag = false ∧
      getHash (FileObject.text "f" "h1" false [[97]])
        = ("h1", FileObject.text "f" "h1" false [[97]])) ∧
    (((FileObject.text "f" "h1" true [[97]]).hashVal = "" ∨
        (FileObject.text "f" "h1" true [[97]]).dirtyFlag = true) ∧
      (getHash (FileObject.text "f" "h1" true [[97]])).2.dirtyFlag = false) ∧
    (assocFind "f" [("f", [102, 111, 111, 10])] = some [102, 111, 111, 10] ∧
      getLines [("f", [102, 111, 111, 10])] (FileObject.text "f" "" false [])
        = .ok ([[102, 111, 111]], FileObject.text "f" "" false [[102, 111, 111]])) := by
  refine ⟨⟨by decide, by decide, ?_⟩, ⟨Or.inr rfl, ?_⟩, ⟨rfl, ?_⟩⟩
  · exact claimC3_getHash.1 (FileObject.text "f" "h1" false [[97]]) (by decide) (by decide)
  · exact (claimC3_getHash.2.1 (FileObject.text "f" "h1" true [[97]]) (Or.inr rfl)).2.2
  · have := (claimC3_getHash.2.2.2.2 [("f", [102, 111, 111, 10])] "f" "" false
      [102, 111, 111, 10] rfl).1
    simpa using this

/-! ## Claim C7: line-ending-insensitive hashing -/

/-- C7: two text files whose backing bytes load to identical line sequences —
even when the raw bytes differ in line-ending style — produce the same hash,
since the hash input is the canonicalized rejoined line sequence. -/
theorem claimC7_lineEnding_hash (fs : Fsys) (p1 p2 : String) (b1 b2 : List Nat)
    (h1 : assocFind p1 fs = some b1) (h2 : assocFind p2 fs = some b2)
    (hl : splitLines b1 = splitLines b2) :
    readContent fs (FileObject.text p1 "" false [])
        = .ok (joinLines (splitLines b1), FileObject.text p1 "" false (splitLines b1)) ∧
    readContent fs (FileObject.text p2 "" false [])
        = .ok (joinLines (splitLines b2), FileObject.text p2 "" false (splitLines b2)) ∧
    (getHash (FileObject.text p1 "" false (splitLines b1))).1
        = (getHash (FileObject.text p2 "" false (splitLines b2))).1 := by
  refine ⟨by simp [readContent, h1], by simp [readContent, h2], ?_⟩
  simp [getHash, computeHash, hl]

/-- Concrete instantiation of C7: `"foo\n"` and `"foo"` (a trailing-newline
difference) are different backing bytes with the same loaded line sequence,
and the two loaded text files hash identically. -/
theorem claimC7_lineEnding_hash_witness :
    ([102, 111, 111, 10] : List Nat) ≠ [102, 111, 111] ∧
    assocFind "a" [("a", [102, 111, 111, 10]), ("b", [102, 111, 111])]
      = some [102, 111, 111, 10] ∧
    assocFind "b" [("a", [102, 111, 111, 10]), ("b", [102, 111, 111])]
      = some [102, 111, 111] ∧
    splitLines [102, 111, 111, 10] = splitLines [102, 111, 111] ∧
    (getHash (FileObject.text "a" "" false (splitLines [102, 111, 111, 10]))).1
      = (getHash (FileObject.text "b" "" false (splitLines [102, 111, 111]))).1 :=
  ⟨by decide, rfl, rfl, by decide,
    (claimC7_lineEnding_hash [("a", [102, 111, 111, 10]), ("b", [102, 111, 111])]
      "a" "b" [102, 111, 111, 10] [102, 111, 111] rfl rfl (by decide)).2.2⟩

/-! ## Claim C10: retrieval writes the blob to the origin path -/

/-- C10: whenever `retrieveObject` finds a hash (in the pool, or on disk on a
pool miss), the returned object is rebuilt via `writeContent` on the blob
bytes, so the filesystem afterwards holds exactly those bytes at the recorded
origin path for the hash (placeholder `"temp"` when no mapping exists): a
successful retrieval overwrites that file, and the returned object carries
the dirty flag `writeContent` set. -/
theorem claimC10_retrieve_writes_origin (w : World) (h : String) (ro : FileObject)
    (w' : World) (c : List Nat)
    (hret : retrieveObject w h = (some ro, w'))
    (hsrc : assocFind h w.pool = some c ∨
      (assocFind h w.pool = none ∧ assocFind (objectPath w h) w.fs = some c)) :
    assocFind ((assocFind h w.hashToPath).getD "temp") w'.fs = some c ∧
    ro.dirtyFlag = true ∧ ro.getPath = (assocFind h w.hashToPath).getD "temp" := by
  obtain ⟨hfs, hdirty, hpath⟩ := writeContent_create w.fs
    ((assocFind h w.hashToPath).getD "temp") c
  rcases hsrc with hc | ⟨hmiss, hc⟩
  · simp only [retrieveObject, hc] at hret
    rw [Prod.mk.injEq] at hret
    obtain ⟨hro, hw⟩ := hret
    injection hro with hro
    subst hro
    subst hw
    exact ⟨by simp [hfs, assocFind_fsWrite_self], hdirty, hpath⟩
  · simp only [retrieveObject, hmiss, hc] at hret
    rw [Prod.mk.injEq] at hret
    obtain ⟨hro, hw⟩ := hret
    injection hro with hro
    subst hro
    subst hw
    exact ⟨by simp [hfs, assocFind_fsWrite_self], hdirty, hpath⟩

/-- Concrete instantiation of C10: a pool hit with no recorded origin path
writes the blob to the placeholder path `"temp"`. -/
theorem claimC10_retrieve_writes_origin_witness :
    retrieveObject
        { fs := [], storePath := "objects", poolMax := 2000,
          pool := [("h1", [65])], hashToPath := [] } "h1"
      = (some (FileObject.text "temp" "" true []),
          { fs := [("temp", [65])], storePath := "objects", poolMax := 2000,
            pool := [("h1", [65])], hashToPath := [] }) ∧
    assocFind "h1" [("h1", [65])] = some ([65] : List Nat) ∧
    assocFind "temp" [("temp", [65])] = some ([65] : List Nat) :=
  ⟨rfl, rfl,
    (claimC10_retrieve_writes_origin
      { fs := [], storePath := "objects", poolMax := 2000,
        pool := [("h1", [65])], hashToPath := [] } "h1"
      (FileObject.text "temp" "" true [])
      { fs := [("temp", [65])], storePath := "objects", poolMax := 2000,
        pool := [("h1", [65])], hashToPath := [] } [65] rfl (Or.inl rfl)).1⟩

/-! ## Claim C4: deduplication -/

/-- Occurrences of a key in an association list. -/
def countKey {α : Type} (k : String) (l : List (String × α)) : Nat :=
  (l.filter (fun e => e.1 == k)).length

/-- A path that is absent (by lookup) and then written occurs exactly once. -/
theorem countKey_fsWrite (fs : Fsys) (p : String) (b : List Nat)
    (hnone : assocFind p fs = none) : countKey p (fsWrite fs p b) = 1 := by
  induction fs with
  | nil => simp [fsWrite, countKey]
  | cons e rest ih =>
      simp only [assocFind] at hnone
      by_cases he : e.1 = p
      · rw [if_pos he] at hnone
        exact absurd hnone (by simp)
      · rw [if_neg he] at hnone
        have hbe : (e.1 == p) = false := by simp [he]
        simp only [fsWrite, if_neg he, countKey, List.filter, hbe]
        simpa [countKey] using ih hnone

/-- C4: after a first successful store of fresh content under hash `h`,
storing any second object whose hash is also `h` returns `h` and is a
complete no-op on the world: the persisted state still holds exactly one
blob for `h`, and the total storage size after the second call is
unchanged. -/
theorem claimC4_dedup (w : World) (oA oB : FileObject) (h : String) (w1 : World)
    (oA1 : FileObject)
    (hfresh : hasObject w ((getHash oA).1) = false)
    (hstore : storeObject w oA = .ok (h, w1, oA1))
    (hsame : (getHash oB).1 = h) :
    storeObject w1 oB = .ok (h, w1, (getHash oB).2) ∧
    countKey (objectPath w1 h) w1.fs = 1 ∧
    (storeObject w1 oB).toOption.map (fun r => getStorageSize r.2.1)
      = some (getStorageSize w1) := by
  simp only [storeObject, hfresh, Bool.false_eq_true, if_false] at hstore
  cases hr : readContent w.fs ((getHash oA).2) with
  | error e => rw [hr] at hstore; simp at hstore
  | ok ce =>
      obtain ⟨c, oA2⟩ := ce
      rw [hr] at hstore
      simp only [Except.ok.injEq, Prod.mk.injEq] at hstore
      obtain ⟨hh, hw, ho⟩ := hstore
      subst hh
      subst hw
      have hdisk : assocFind (objectPath w ((getHash oA).1)) w.fs = none := by
        cases hopt : assocFind (objectPath w ((getHash oA).1)) w.fs with
        | none => rfl
        | some v =>
            simp only [hasObject, hopt, Option.isSome_some, Bool.or_true] at hfresh
            exact absurd hfresh (by simp)
      have hhas : hasObject
          { w with
            pool := poolStore w.poolMax w.pool ((getHash oA).1) c
            fs := fsWrite w.fs (objectPath w ((getHash oA).1)) c
            hashToPath := insertSorted ((getHash oA).1) oA2.getPath w.hashToPath }
          ((getHash oA).1) = true := by
        simp [hasObject, poolStore, assocFind_insertSorted_self]
      have hfirst : storeObject
          { w with
            pool := poolStore w.poolMax w.pool ((getHash oA).1) c
            fs := fsWrite w.fs (objectPath w ((getHash oA).1)) c
            hashToPath := insertSorted ((getHash oA).1) oA2.getPath w.hashToPath }
          oB = .ok ((getHash oA).1,
            { w with
              pool := poolStore w.poolMax w.pool ((getHash oA).1) c
              fs := fsWrite w.fs (objectPath w ((getHash oA).1)) c
              hashToPath := insertSorted ((getHash oA).1) oA2.getPath w.hashToPath },
            (getHash oB).2) := by
        simp only [storeObject, hsame, hhas, if_true]
      refine ⟨hfirst, ?_, by rw [hfirst]; rfl⟩
      have hsp : objectPath
          { w with
            pool := poolStore w.poolMax w.pool ((getHash oA).1) c
            fs := fsWrite w.fs (objectPath w ((getHash oA).1)) c
            hashToPath := insertSorted ((getHash oA).1) oA2.getPath w.hashToPath }
          ((getHash oA).1) = objectPath w ((getHash oA).1) := rfl
      rw [hsp]
      exact countKey_fsWrite w.fs (objectPath w ((getHash oA).1)) c hdisk

/-- Concrete instantiation of C4: two text instances with the same (cached)
hash; the second store is a no-op returning the same hash, one blob for the
hash persists, and the storage size is unchanged. -/
theorem claimC4_dedup_witness :
    hasObject
        { fs := [("f", [102, 111, 111, 10])], storePath := "objects", poolMax := 2000,
          pool := [], hashToPath := [] }
        ((getHash (FileObject.text "f" "h1" false [])).1) = false ∧
    storeObject
        { fs := [("f", [102, 111, 111, 10])], storePath := "objects", poolMax := 2000,
          pool := [], hashToPath := [] } (FileObject.text "f" "h1" false [])
      = .ok ("h1",
          { fs := [("f", [102, 111, 111, 10]), ("objects/h1/", [102, 111, 111, 10])],
            storePath := "objects", poolMax := 2000,
            pool := [("h1", [102, 111, 111, 10])], hashToPath := [("h1", "f")] },
          FileObject.text "f" "h1" false [[102, 111, 111]]) ∧
    storeObject
        { fs := [("f", [102, 111, 111, 10]), ("objects/h1/", [102, 111, 111, 10])],
          storePath := "objects", poolMax := 2000,
          pool := [("h1", [102, 111, 111, 10])], hashToPath := [("h1", "f")] }
        (FileObject.text "g" "h1" false [])
      = .ok ("h1",
          { fs := [("f", [102, 111, 111, 10]), ("objects/h1/", [102, 111, 111, 10])],
            storePath := "objects", poolMax := 2000,
            pool := [("h1", [102, 111, 111, 10])], hashToPath := [("h1", "f")] },
          FileObject.text "g" "h1" false []) ∧
    countKey
        (objectPath
          { fs := [("f", [102, 111, 111, 10]), ("objects/h1/", [102, 111, 111, 10])],
            storePath := "objects", poolMax := 2000,
            pool := [("h1", [102, 111, 111, 10])], hashToPath := [("h1", "f")] } "h1")
        [("f", [102, 111, 111, 10]), ("objects/h1/", [102, 111, 111, 10])] = 1 := by
  have happ := claimC4_dedup
    { fs := [("f", [102, 111, 111, 10])], storePath := "objects", poolMax := 2000,
      pool := [], hashToPath := [] }
    (FileObject.text "f" "h1" false []) (FileObject.text "g" "h1" false []) "h1"
    { fs := [("f", [102, 111, 111, 10]), ("objects/h1/", [102, 111, 111, 10])],
      storePath := "objects", poolMax := 2000,
      pool := [("h1", [102, 111, 111, 10])], hashToPath := [("h1", "f")] }
    (FileObject.text "f" "h1" false [[102, 111, 111]])
    (by decide) rfl rfl
  exact ⟨by decide, rfl, happ.1, happ.2.1⟩

/-! ## Claim C8: bounded cache -/

/-- A call against the store: either a `storeObject` of some object or a
`retrieveObject` of some hash. -/
inductive StoreOp where
  | store (o : FileObject)
  | retr (h : String)

/-- Run one call; a thrown `IOError` leaves the world as it was at the throw
point (nothing is mutated before `readContent` throws). -/
def runOp (w : World) : StoreOp → World
  | .store o =>
      match storeObject w o with
      | .ok r => r.2.1
      | .error _ => w
  | .retr h => (retrieveObject w h).2

/-- Run a sequence of calls left to right. -/
def runOps (w : World) : List StoreOp → World
  | [] => w
  | op :: ops => runOps (runOp w op) ops

/-- `StoragePool::store` keeps the pool within a positive capacity. -/
theorem poolStore_length {α : Type} (maxSize : Nat) (pool : List (String × α))
    (k : String) (v : α) (hmax : 0 < maxSize) (hlen : pool.length ≤ maxSize) :
    (poolStore maxSize pool k v).length ≤ maxSize := by
  unfold poolStore
  by_cases hge : maxSize ≤ pool.length
  · rw [if_pos hge]
    have h1 := insertSorted_length k v pool.tail
    have ht : pool.tail.length = pool.length - 1 := by
      cases pool <;> simp
    omega
  · rw [if_neg hge]
    have h1 := insertSorted_length k v pool
    omega

/-- A successful `storeObject` preserves the capacity and either leaves the
pool alone or runs it through `StoragePool::store`. -/
theorem storeObject_pool (w : World) (o : FileObject) (h : String) (w' : World)
    (o' : FileObject) (hs : storeObject w o = .ok (h, w', o')) :
    w'.poolMax = w.poolMax ∧
    (w'.pool = w.pool ∨ ∃ c, w'.pool = poolStore w.poolMax w.pool (getHash o).1 c) := by
  simp only [storeObject] at hs
  by_cases hho : hasObject w ((getHash o).1) = true
  · rw [if_pos hho] at hs
    simp only [Except.ok.injEq, Prod.mk.injEq] at hs
    obtain ⟨h1, h2, h3⟩ := hs
    subst h2
    exact ⟨rfl, Or.inl rfl⟩
  · rw [if_neg hho] at hs
    cases hr : readContent w.fs ((getHash o).2) with
    | error e => rw [hr] at hs; simp at hs
    | ok ce =>
        obtain ⟨c, o2⟩ := ce
        rw [hr] at hs
        simp only [Except.ok.injEq, Prod.mk.injEq] at hs
        obtain ⟨h1, h2, h3⟩ := hs
        subst h2
        exact ⟨rfl, Or.inr ⟨c, rfl⟩⟩

/-- `retrieveObject` preserves the capacity and either leaves the pool alone
or backfills it through `StoragePool::store`. -/
theorem retrieveObject_pool (w : World) (h : String) :
    (retrieveObject w h).2.poolMax = w.poolMax ∧
    ((retrieveObject w h).2.pool = w.pool ∨
      ∃ c, (retrieveObject w h).2.pool = poolStore w.poolMax w.pool h c) := by
  unfold retrieveObject
  cases hp : assocFind h w.pool with
  | some c => exact ⟨rfl, Or.inl rfl⟩
  | none =>
      cases hd : assocFind (objectPath w h) w.fs with
      | none => exact ⟨rfl, Or.inl rfl⟩
      | some c => exact ⟨rfl, Or.inr ⟨c, rfl⟩⟩

/-- One call preserves the cache-capacity invariant. -/
theorem runOp_inv (w : World) (op : StoreOp) (hmax : 0 < w.poolMax)
    (hlen : w.pool.length ≤ w.poolMax) :
    (runOp w op).poolMax = w.poolMax ∧ (runOp w op).pool.length ≤ w.poolMax := by
  cases op with
  | store o =>
      simp only [runOp]
      cases hs : storeObject w o with
      | error e => exact ⟨rfl, hlen⟩
      | ok r =>
          obtain ⟨h, w', o'⟩ := r
          obtain ⟨hpm, hp⟩ := storeObject_pool w o h w' o' hs
          refine ⟨hpm, ?_⟩
          rcases hp with hp | ⟨c, hp⟩
          · rw [hp]; exact hlen
          · rw [hp]; exact poolStore_length _ _ _ _ hmax hlen
  | retr h =>
      simp only [runOp]
      obtain ⟨hpm, hp⟩ := retrieveObject_pool w h
      refine ⟨hpm, ?_⟩
      rcases hp with hp | ⟨c, hp⟩
      · rw [hp]; exact hlen
      · rw [hp]; exact poolStore_length _ _ _ _ hmax hlen

/-- Any sequence of calls preserves the cache-capacity invariant. -/
theorem runOps_inv : ∀ (ops : List StoreOp) (w : World), 0 < w.poolMax →
    w.pool.length ≤ w.poolMax →
    (runOps w ops).poolMax = w.poolMax ∧ (runOps w ops).pool.length ≤ w.poolMax := by
  intro ops
  induction ops with
  | nil => intro w _ hlen; exact ⟨rfl, hlen⟩
  | cons op ops ih =>
      intro w hmax hlen
      obtain ⟨hpm, hpl⟩ := runOp_inv w op hmax hlen
      have hrec := ih (runOp w op) (by rw [hpm]; exact hmax) (by rw [hpm]; exact hpl)
      simp only [runOps]
      exact ⟨hrec.1.trans hpm, by rw [← hpm]; exact hrec.2⟩

/-- C8: for a cache with positive configured capacity, after any sequence of
`storeObject` / `retrieveObject` calls (starting within capacity) the
in-memory pool never holds more entries than the capacity, and a pool lookup
succeeds only for an entry the pool actually holds. -/
theorem claimC8_cache_capacity :
    (∀ (w : World) (ops : List StoreOp), 0 < w.poolMax → w.pool.length ≤ w.poolMax →
      (runOps w ops).pool.length ≤ w.poolMax) ∧
    (∀ (pool : List (String × List Nat)) (h : String) (c : List Nat),
      assocFind h pool = some c → (h, c) ∈ pool) :=
  ⟨fun w ops hmax hlen => (runOps_inv ops w hmax hlen).2,
    fun pool h c hf => assocFind_mem h c pool hf⟩

/-- Concrete instantiation of C8: capacity 1, two stores and a retrieval. -/
theorem claimC8_cache_capacity_witness :
    0 < (1 : Nat) ∧ ([] : List (String × List Nat)).length ≤ 1 ∧
    (runOps
      { fs := [("f", [97])], storePath := "objects", poolMax := 1,
        pool := [], hashToPath := [] }
      [.store (FileObject.text "f" "h1" false []),
       .store (FileObject.text "f" "h2" false []),
       .retr "h1"]).pool.length ≤ 1 :=
  ⟨by decide, by decide,
    claimC8_cache_capacity.1
      { fs := [("f", [97])], storePath := "objects", poolMax := 1,
        pool := [], hashToPath := [] }
      [.store (FileObject.text "f" "h1" false []),
       .store (FileObject.text "f" "h2" false []),
       .retr "h1"] (by decide) (by decide)⟩

/-! ## Claim C1: store/retrieve round-trip -/

/-- Canonical text form: splitting into lines and rejoining reproduces the
bytes exactly (this is the shape `TextFile::readContent` always outputs:
every line `'\n'`-terminated). -/
def canonicalText (c : List Nat) : Prop := joinLines (splitLines c) = c

/-- The `getline` splitter on a 10-free line followed by a newline emits that
line (prefixed by whatever was already accumulated) and continues. -/
theorem splitLinesAux_lineStep (l : List Nat) (hl : ¬ 10 ∈ l) :
    ∀ (cur rest : List Nat),
      splitLinesAux (l ++ 10 :: rest) cur
        = (cur.reverse ++ l) :: (if rest = [] then [] else splitLinesAux rest []) := by
  induction l with
  | nil => intro cur rest; simp [splitLinesAux]
  | cons b l ih =>
      intro cur rest
      obtain ⟨h1, h2⟩ : ¬(10 = b) ∧ 10 ∉ l := by simpa using hl
      have hb : ¬ b = 10 := fun hh => h1 hh.symm
      have step : splitLinesAux ((b :: l) ++ 10 :: rest) cur
          = splitLinesAux (l ++ 10 :: rest) (b :: cur) := by
        simp [splitLinesAux, hb]
      rw [step, ih h2 (b :: cur) rest]
      simp

/-- Splitting the rejoined form of 10-free lines gives the lines back. -/
theorem splitLines_joinLines (ls : List (List Nat)) (hl : ∀ l ∈ ls, ¬ 10 ∈ l) :
    splitLines (joinLines ls) = ls := by
  induction ls with
  | nil => simp [joinLines, splitLines]
  | cons l ls ih =>
      have hln : joinLines (l :: ls) = l ++ 10 :: joinLines ls := rfl
      have hne : joinLines (l :: ls) ≠ [] := by rw [hln]; simp
      have ihls := ih (fun m hm => hl m (List.mem_cons_of_mem l hm))
      rw [splitLines, if_neg hne, hln,
        splitLinesAux_lineStep l (hl l (by simp)) [] (joinLines ls)]
      cases hls : ls with
      | nil => simp [joinLines]
      | cons x xs =>
          have hne2 : joinLines (x :: xs) ≠ [] := by
            show x ++ 10 :: joinLines xs ≠ []
            simp
          rw [if_neg hne2]
          rw [hls, splitLines, if_neg hne2] at ihls
          rw [ihls]
          simp

/-- Every line produced by the splitter is free of newline bytes. -/
theorem splitLinesAux_no10 : ∀ (bs cur l : List Nat), ¬ 10 ∈ cur →
    l ∈ splitLinesAux bs cur → ¬ 10 ∈ l := by
  intro bs
  induction bs with
  | nil =>
      intro cur l hcur hmem
      simp [splitLinesAux] at hmem
      subst hmem
      simpa using hcur
  | cons b rest ih =>
      intro cur l hcur hmem
      by_cases hb : b = 10
      · simp only [splitLinesAux, if_pos hb] at hmem
        rcases List.mem_cons.mp hmem with hl | hl
        · subst hl; simpa using hcur
        · by_cases hrest : rest = []
          · simp [hrest] at hl
          · rw [if_neg hrest] at hl
            exact ih [] l (by simp) hl
      · simp only [splitLinesAux, if_neg hb] at hmem
        exact ih (b :: cur) l (by simp [hcur, hb, Ne.symm hb]) hmem

/-- Lines loaded by `splitLines` never contain a newline byte. -/
theorem splitLines_no10 (bs l : List Nat) (hmem : l ∈ splitLines bs) : ¬ 10 ∈ l := by
  unfold splitLines at hmem
  by_cases hbs : bs = []
  · simp [hbs] at hmem
  · rw [if_neg hbs] at hmem
    exact splitLinesAux_no10 bs [] l (by simp) hmem

/-- The text-read canonical form really is canonical. -/
theorem canonicalText_joinLines_splitLines (b : List Nat) :
    canonicalText (joinLines (splitLines b)) := by
  unfold canonicalText
  rw [splitLines_joinLines (splitLines b) (fun l hl => splitLines_no10 b l hl)]

/-- `StoragePool::store` makes the stored key retrievable with its bytes. -/
theorem assocFind_poolStore_self {α : Type} (maxSize : Nat)
    (pool : List (String × α)) (k : String) (v : α) :
    assocFind k (poolStore maxSize pool k v) = some v :=
  assocFind_insertSorted_self k v _

/-- C1, counterexample to the claim as stated: a binary instance whose origin
file has no null byte in its first 512 bytes (here the single byte `'A'`).
The store reads and persists `[65]`, but retrieval re-classifies the origin
path as *text*, so the retrieved object reads back `[65, 10]` — the text
canonicalization appended a newline and the round-tripped bytes differ from
the original input bytes. -/
theorem claimC1_roundtrip_counterexample :
    readContent
        [("f", [65])]
        ((getHash (FileObject.binary "f" "h1" false 0 [])).2)
      = .ok ([65], FileObject.binary "f" "h1" false 1 [65]) ∧
    storeObject
        { fs := [("f", [65])], storePath := "objects", poolMax := 2000,
          pool := [], hashToPath := [] }
        (FileObject.binary "f" "h1" false 0 [])
      = .ok ("h1",
          { fs := [("f", [65]), ("objects/h1/", [65])], storePath := "objects",
            poolMax := 2000, pool := [("h1", [65])], hashToPath := [("h1", "f")] },
          FileObject.binary "f" "h1" false 1 [65]) ∧
    (retrieveObject
        { fs := [("f", [65]), ("objects/h1/", [65])], storePath := "objects",
          poolMax := 2000, pool := [("h1", [65])], hashToPath := [("h1", "f")] }
        "h1").1 = some (FileObject.text "f" "" true []) ∧
    readContent
        (retrieveObject
          { fs := [("f", [65]), ("objects/h1/", [65])], storePath := "objects",
            poolMax := 2000, pool := [("h1", [65])], hashToPath := [("h1", "f")] }
          "h1").2.fs
        (FileObject.text "f" "" true [])
      = .ok ([65, 10], FileObject.text "f" "" true [[65]]) ∧
    ([65, 10] : List Nat) ≠ [65] :=
  ⟨rfl, rfl, rfl, rfl, by decide⟩

/-- C1, amended: storing fresh content and retrieving the returned hash
yields a present object whose readable bytes equal the bytes the store read
from the instance, *provided* the retrieval-time detection classifies the
recorded origin path as binary, or the stored bytes are in canonical text
form (as the bytes of every text instance are). -/
theorem claimC1_roundtrip (w : World) (o : FileObject) (h : String) (w1 : World)
    (o1 : FileObject) (c : List Nat) (o2 : FileObject)
    (hfresh : hasObject w ((getHash o).1) = false)
    (hread : readContent w.fs ((getHash o).2) = .ok (c, o2))
    (hstore : storeObject w o = .ok (h, w1, o1))
    (hcond : detectBinary w1.fs ((assocFind h w1.hashToPath).getD "temp") = true ∨
      canonicalText c) :
    (retrieveObject w1 h).1.map
        (fun ro => (readContent (retrieveObject w1 h).2.fs ro).map (fun rc => rc.1))
      = some (Except.ok c) := by
  simp only [storeObject, hfresh, Bool.false_eq_true, if_false, hread] at hstore
  simp only [Except.ok.injEq, Prod.mk.injEq] at hstore
  obtain ⟨hh, hw, ho⟩ := hstore
  subst hh
  subst hw
  have hpool : assocFind ((getHash o).1)
      (poolStore w.poolMax w.pool ((getHash o).1) c) = some c :=
    assocFind_poolStore_self _ _ _ _
  have hpath : assocFind ((getHash o).1)
      (insertSorted ((getHash o).1) o2.getPath w.hashToPath) = some o2.getPath :=
    assocFind_insertSorted_self _ _ _
  simp only [retrieveObject, hpool, hpath, Option.getD_some]
  simp only [hpath, Option.getD_some] at hcond
  cases hdb : detectBinary
      (fsWrite w.fs (objectPath w ((getHash o).1)) c) o2.getPath with
  | false =>
      have hcanon : joinLines (splitLines c) = c := by
        rcases hcond with hcond | hcond
        · rw [hdb] at hcond; exact absurd hcond (by simp)
        · exact hcond
      simp [createFileObject, hdb, writeContent, readContent, assocFind_fsWrite_self,
        Except.map, hcanon]
  | true =>
      simp [createFileObject, hdb, writeContent, readContent, assocFind_fsWrite_self,
        Except.map]

/-- Concrete instantiation of C1's amended statement: a text file `"foo\n"`
stored fresh (under a cached hash) and retrieved reads back exactly the bytes
the store read. -/
theorem claimC1_roundtrip_witness :
    hasObject
        { fs := [("f", [102, 111, 111, 10])], storePath := "objects", poolMax := 2000,
          pool := [], hashToPath := [] }
        ((getHash (FileObject.text "f" "h1" false [])).1) = false ∧
    readContent [("f", [102, 111, 111, 10])]
        ((getHash (FileObject.text "f" "h1" false [])).2)
      = .ok ([102, 111, 111, 10], FileObject.text "f" "h1" false [[102, 111, 111]]) ∧
    canonicalText [102, 111, 111, 10] ∧
    (retrieveObject
        { fs := [("f", [102, 111, 111, 10]), ("objects/h1/", [102, 111, 111, 10])],
          storePath := "objects", poolMax := 2000,
          pool := [("h1", [102, 111, 111, 10])], hashToPath := [("h1", "f")] }
        "h1").1.map
        (fun ro => (readContent
          (retrieveObject
            { fs := [("f", [102, 111, 111, 10]), ("objects/h1/", [102, 111, 111, 10])],
              storePath := "objects", poolMax := 2000,
              pool := [("h1", [102, 111, 111, 10])], hashToPath := [("h1", "f")] }
            "h1").2.fs ro).map (fun rc => rc.1))
      = some (Except.ok [102, 111, 111, 10]) := by
  refine ⟨by decide, rfl, by unfold canonicalText; decide, ?_⟩
  exact claimC1_roundtrip
    { fs := [("f", [102, 111, 111, 10])], storePath := "objects", poolMax := 2000,
      pool := [], hashToPath := [] }
    (FileObject.text "f" "h1" false []) "h1"
    { fs := [("f", [102, 111, 111, 10]), ("objects/h1/", [102, 111, 111, 10])],
      storePath := "objects", poolMax := 2000,
      pool := [("h1", [102, 111, 111, 10])], hashToPath := [("h1", "f")] }
    (FileObject.text "f" "h1" false [[102, 111, 111]]) [102, 111, 111, 10]
    (FileObject.text "f" "h1" false [[102, 111, 111]])
    (by decide) rfl rfl (Or.inr (by unfold canonicalText; decide))

/-! ## Claim C6: `calculateSimilarity` and the Levenshtein distance

The plan: relate the iterated DP rows of `lastRow`/`rowStep` to
`levenshteinSpec` on reversed prefixes (the table compares *last* characters
of prefixes, the reference recursion *first* characters), then prove the
reference distance invariant under simultaneous reversal via the snoc-form
recurrence, plus symmetry and the `max`-length bound. -/

/-- The segment of DP row `i` from column `j` on, expressed through the
reference distance: `xs` is the reversed length-`i` prefix of `text1`, `ys`
the reversed length-`j` prefix of `text2`, and `ds` the remaining characters
of `text2`. -/
def rowFrom (xs : List Char) : List Char → List Char → List Nat
  | ys, [] => [levenshteinSpec xs ys]
  | ys, d :: ds => levenshteinSpec xs ys :: rowFrom xs (d :: ys) ds

/-- `rowFrom` always starts with the distance at its base point. -/
theorem rowFrom_head (xs ys ds : List Char) :
    rowFrom xs ys ds = levenshteinSpec xs ys :: (rowFrom xs ys ds).tail := by
  cases ds <;> simp [rowFrom]

/-- `levenshteinSpec` against the empty first argument is the length. -/
theorem lev_nil_left (ys : List Char) : levenshteinSpec [] ys = ys.length := by
  simp [levenshteinSpec]

/-- `levenshteinSpec` against the empty second argument is the length. -/
theorem lev_nil_right : ∀ xs : List Char, levenshteinSpec xs [] = xs.length := by
  intro xs; cases xs <;> simp [levenshteinSpec]

/-- The inner DP loop computes row `i+1` from row `i`: one `rowStep` starting
from the left border value `dp[i+1][j] = levenshteinSpec (c :: xs) ys`
produces the rest of row `i+1`. -/
theorem rowStep_spec (c : Char) (xs : List Char) :
    ∀ (ds ys : List Char),
      rowStep c (levenshteinSpec (c :: xs) ys) ds (rowFrom xs ys ds)
        = (rowFrom (c :: xs) ys ds).tail := by
  intro ds
  induction ds with
  | nil => intro ys; simp [rowStep, rowFrom]
  | cons d ds ih =>
      intro ys
      rw [show rowFrom xs ys (d :: ds)
            = levenshteinSpec xs ys :: rowFrom xs (d :: ys) ds from by simp [rowFrom]]
      rw [rowFrom_head xs (d :: ys) ds]
      simp only [rowStep]
      have he : (if c = d then levenshteinSpec xs ys
          else 1 + min (levenshteinSpec xs (d :: ys))
            (min (levenshteinSpec (c :: xs) ys) (levenshteinSpec xs ys)))
          = levenshteinSpec (c :: xs) (d :: ys) := by
        by_cases hcd : c = d <;> simp [levenshteinSpec, hcd]
      rw [he, ← rowFrom_head xs (d :: ys) ds, ih (d :: ys)]
      rw [show (rowFrom (c :: xs) ys (d :: ds)).tail
            = rowFrom (c :: xs) (d :: ys) ds from by simp [rowFrom]]
      exact (rowFrom_head (c :: xs) (d :: ys) ds).symm

/-- Wrapping one outer-loop step: prepending the border value `i+1` to the
`rowStep` output yields the full next row. -/
theorem newRow_eq (c : Char) (xs t : List Char) :
    (xs.length + 1) :: rowStep c (xs.length + 1) t (rowFrom xs [] t)
      = rowFrom (c :: xs) [] t := by
  have h1 : xs.length + 1 = levenshteinSpec (c :: xs) [] := by
    rw [lev_nil_right]; rfl
  rw [h1, rowStep_spec c xs t []]
  exact (rowFrom_head (c :: xs) [] t).symm

/-- The outer DP loop: starting from the row for the reversed prefix `xs`,
consuming the remaining `text1` characters `cs` lands at the row for the
whole reversed `text1`. -/
theorem lastRow_spec (t : List Char) : ∀ (cs xs : List Char),
    lastRow t cs (xs.length + 1) (rowFrom xs [] t)
      = rowFrom (cs.reverseAux xs) [] t := by
  intro cs
  induction cs with
  | nil => intro xs; simp [lastRow, List.reverseAux]
  | cons c cs ih =>
      intro xs
      simp only [lastRow]
      rw [newRow_eq c xs t]
      have h2 : xs.length + 1 + 1 = (c :: xs).length + 1 := by simp
      rw [h2]
      exact ih (c :: xs)

/-- The last entry of a row segment is the distance at the far column. -/
theorem rowFrom_getLast : ∀ (ds : List Char) (xs ys : List Char) (dflt : Nat),
    (rowFrom xs ys ds).getLastD dflt = levenshteinSpec xs (ds.reverseAux ys) := by
  intro ds
  induction ds with
  | nil => intro xs ys dflt; simp [rowFrom, List.reverseAux]
  | cons d ds ih =>
      intro xs ys dflt
      rw [show rowFrom xs ys (d :: ds)
            = levenshteinSpec xs ys :: rowFrom xs (d :: ys) ds from by simp [rowFrom]]
      rw [List.getLastD_cons]
      exact ih xs (d :: ys) _

/-- Row 0 of the table is `0, 1, ..., n`. -/
theorem rowFrom_nil : ∀ (ds ys : List Char),
    rowFrom [] ys ds = List.range' ys.length (ds.length + 1) := by
  intro ds
  induction ds with
  | nil => intro ys; simp [rowFrom, lev_nil_left, List.range']
  | cons d ds ih =>
      intro ys
      rw [show rowFrom [] ys (d :: ds)
            = levenshteinSpec [] ys :: rowFrom [] (d :: ys) ds from by simp [rowFrom]]
      rw [lev_nil_left, ih (d :: ys)]
      simp [List.range']

/-- The first-character recurrence of the reference distance, as one
equation. -/
theorem lev_cons_cons (x y : Char) (xs ys : List Char) :
    levenshteinSpec (x :: xs) (y :: ys)
      = if x = y then levenshteinSpec xs ys
        else 1 + min (levenshteinSpec xs (y :: ys))
          (min (levenshteinSpec (x :: xs) ys) (levenshteinSpec xs ys)) := by
  simp [levenshteinSpec]

set_option maxHeartbeats 800000 in
/-- The reference distance also satisfies the *last*-character (snoc)
recurrence — the recurrence the DP table of the source uses. -/
theorem lev_snoc : ∀ (xs ys : List Char) (c d : Char),
    levenshteinSpec (xs ++ [c]) (ys ++ [d])
      = if c = d then levenshteinSpec xs ys
        else 1 + min (levenshteinSpec xs (ys ++ [d]))
          (min (levenshteinSpec (xs ++ [c]) ys) (levenshteinSpec xs ys)) := by
  intro xs
  induction xs with
  | nil =>
      intro ys
      induction ys with
      | nil =>
          intro c d
          by_cases hcd : c = d <;> simp [levenshteinSpec, hcd]
      | cons y ys ihy =>
          intro c d
          have h2 := ihy c d
          simp only [List.nil_append] at h2 ⊢
          simp only [List.cons_append, lev_cons_cons]
          rw [h2]
          rcases eq_or_ne c d with hcd | hcd
          · subst hcd
            rcases eq_or_ne c y with hcy | hcy
            · subst hcy
              simp [lev_nil_left]
            · simp [hcy, lev_nil_left]
              try omega
          · rcases eq_or_ne c y with hcy | hcy
            · subst hcy
              simp [hcd, lev_nil_left]
              try omega
            · simp [hcd, hcy, lev_nil_left]
              try omega
  | cons x xs ihx =>
      intro ys
      induction ys with
      | nil =>
          intro c d
          have h2 := ihx [] c d
          simp only [List.nil_append] at h2
          simp only [List.cons_append, List.nil_append, lev_cons_cons]
          rw [h2]
          rcases eq_or_ne c d with hcd | hcd
          · subst hcd
            rcases eq_or_ne x c with hxc | hxc
            · subst hxc
              simp [lev_nil_right]
              try omega
            · simp [hxc, lev_nil_right]
              try omega
          · rcases eq_or_ne x d with hxd | hxd
            · subst hxd
              simp [hcd, lev_nil_right]
              try omega
            · simp [hcd, hxd, lev_nil_right]
              try omega
      | cons y ys ihy =>
          intro c d
          have h1 := ihx ys c d
          have h2 := ihx (y :: ys) c d
          have h3 := ihy c d
          simp only [List.cons_append] at h1 h2 h3 ⊢
          simp only [lev_cons_cons]
          rw [h1, h2, h3]
          clear h1 h2 h3 ihy ihx
          rcases eq_or_ne x y with hxy | hxy <;> rcases eq_or_ne c d with hcd | hcd
          · simp only [if_pos hxy, if_pos hcd]
          · simp only [if_pos hxy, if_neg hcd]
          · simp only [if_neg hxy, if_pos hcd]
          · simp only [if_neg hxy, if_neg hcd]
            generalize levenshteinSpec xs (y :: (ys ++ [d])) = vB
            generalize levenshteinSpec (xs ++ [c]) (y :: ys) = vE
            generalize levenshteinSpec (x :: xs) (ys ++ [d]) = vG
            generalize levenshteinSpec (x :: (xs ++ [c])) ys = vH
            generalize levenshteinSpec xs (ys ++ [d]) = vb
            generalize levenshteinSpec (xs ++ [c]) ys = ve
            generalize levenshteinSpec xs (y :: ys) = vf
            generalize levenshteinSpec (x :: xs) ys = vg
            generalize levenshteinSpec xs ys = va
            rw [min_add_add_left, min_add_add_left, min_add_add_left, min_add_add_left]
            have hmin : (vB ⊓ (vE ⊓ vf)) ⊓ ((vG ⊓ (vH ⊓ vg)) ⊓ (vb ⊓ (ve ⊓ va)))
                = (vB ⊓ (vG ⊓ vb)) ⊓ ((vE ⊓ (vH ⊓ ve)) ⊓ (vf ⊓ (vg ⊓ va))) := by
              apply le_antisymm <;> simp only [le_min_iff, min_le_iff] <;> simp [le_refl]
            rw [hmin]

/-- The reference distance is invariant under reversing both inputs. -/
theorem lev_reverse : ∀ xs ys : List Char,
    levenshteinSpec xs.reverse ys.reverse = levenshteinSpec xs ys := by
  intro xs
  induction xs with
  | nil =>
      intro ys
      simp [lev_nil_left, List.length_reverse]
  | cons x xs ihx =>
      intro ys
      induction ys with
      | nil => simp [lev_nil_right, List.length_reverse]
      | cons y ys ihy =>
          rw [List.reverse_cons, List.reverse_cons, lev_snoc,
            ← List.reverse_cons y ys, ← List.reverse_cons x xs, ihx (y :: ys), ihy,
            ihx ys, lev_cons_cons]

/-- The reference distance is symmetric. -/
theorem lev_symm : ∀ xs ys : List Char, levenshteinSpec xs ys = levenshteinSpec ys xs := by
  intro xs
  induction xs with
  | nil => intro ys; rw [lev_nil_left, lev_nil_right]
  | cons x xs ihx =>
      intro ys
      induction ys with
      | nil => rw [lev_nil_left, lev_nil_right]
      | cons y ys ihy =>
          rw [lev_cons_cons x y, lev_cons_cons y x, ihx (y :: ys), ihy, ihx ys]
          rcases eq_or_ne x y with h | h
          · simp [h]
          · rw [if_neg h, if_neg (Ne.symm h), min_left_comm]

/-- The reference distance is at most the longer length. -/
theorem lev_le_max : ∀ xs ys : List Char,
    levenshteinSpec xs ys ≤ max xs.length ys.length := by
  intro xs
  induction xs with
  | nil => intro ys; rw [lev_nil_left]; exact le_max_right _ _
  | cons x xs ihx =>
      intro ys
      induction ys with
      | nil => rw [lev_nil_right]; exact le_max_left _ _
      | cons y ys ihy =>
          rw [lev_cons_cons]
          rcases eq_or_ne x y with h | h
          · rw [if_pos h]
            have h1 := ihx ys
            simp only [List.length_cons]
            omega
          · rw [if_neg h]
            have h1 := ihx ys
            have h2 : min (levenshteinSpec xs (y :: ys))
                (min (levenshteinSpec (x :: xs) ys) (levenshteinSpec xs ys))
                ≤ levenshteinSpec xs ys :=
              le_trans (min_le_right _ _) (min_le_right _ _)
            simp only [List.length_cons]
            omega

/-- The source's DP table computes exactly the reference distance: the final
cell of `lastRow` is `levenshteinSpec`. -/
theorem editDistance_levenshtein (s t : List Char) :
    editDistance s t = levenshteinSpec s t := by
  have h0 : List.range (t.length + 1) = rowFrom [] [] t := by
    rw [rowFrom_nil t []]
    simp [List.range_eq_range']
  unfold editDistance
  rw [h0]
  rw [show (1 : Nat) = ([] : List Char).length + 1 from rfl]
  rw [lastRow_spec t s [], rowFrom_getLast]
  rw [show (s.reverseAux [] : List Char) = s.reverse from rfl]
  rw [show (t.reverseAux [] : List Char) = t.reverse from rfl]
  exact lev_reverse s t

/-- `calculateSimilarity` in closed form over the reference distance. -/
theorem calculateSimilarity_formula (A B : String) :
    calculateSimilarity A B
      = if A.length = 0 ∧ B.length = 0 then 1
        else if A.length = 0 ∨ B.length = 0 then 0
        else 1 - (levenshteinSpec A.data B.data : ℚ)
          / ((max A.length B.length : Nat) : ℚ) := by
  simp only [calculateSimilarity, editDistance_levenshtein]

/-- The reference distance of a string to itself is zero. -/
theorem lev_self : ∀ xs : List Char, levenshteinSpec xs xs = 0 := by
  intro xs
  induction xs with
  | nil => simp [lev_nil_left]
  | cons x xs ih => rw [lev_cons_cons, if_pos rfl]; exact ih

/-- C6: `calculateSimilarity` (with `double` arithmetic carried exactly in
`ℚ`) equals `1 - levenshteinDistance / max(len A, len B)` for the standard
unit-cost Levenshtein distance, with the both-empty → 1 and one-empty → 0
conventions; in particular the three concrete values hold, the result lies
in `[0, 1]`, and the function is symmetric. -/
theorem claimC6_similarity :
    calculateSimilarity "" "" = 1 ∧ calculateSimilarity "" "abc" = 0 ∧
    calculateSimilarity "abc" "abc" = 1 ∧
    ∀ A B : String,
      (calculateSimilarity A B
        = if A.length = 0 ∧ B.length = 0 then 1
          else if A.length = 0 ∨ B.length = 0 then 0
          else 1 - (levenshteinSpec A.data B.data : ℚ)
            / ((max A.length B.length : Nat) : ℚ)) ∧
      0 ≤ calculateSimilarity A B ∧ calculateSimilarity A B ≤ 1 ∧
      calculateSimilarity A B = calculateSimilarity B A := by
  have bounds : ∀ A B : String, ¬(A.length = 0 ∧ B.length = 0) →
      ¬(A.length = 0 ∨ B.length = 0) →
      (0:ℚ) ≤ (levenshteinSpec A.data B.data : ℚ) / ((max A.length B.length : Nat) : ℚ) ∧
      (levenshteinSpec A.data B.data : ℚ) / ((max A.length B.length : Nat) : ℚ) ≤ 1 := by
    intro A B _ h2
    push_neg at h2
    obtain ⟨ha, hb⟩ := h2
    have hm : 0 < max A.length B.length := by omega
    have hd : levenshteinSpec A.data B.data ≤ max A.length B.length :=
      lev_le_max A.data B.data
    constructor
    · positivity
    · rw [div_le_one (by exact_mod_cast hm)]
      exact_mod_cast hd
  refine ⟨by decide, by decide, ?_, fun A B =>
    ⟨calculateSimilarity_formula A B, ?_, ?_, ?_⟩⟩
  · rw [calculateSimilarity_formula, lev_self]
    simp
  · rw [calculateSimilarity_formula]
    split_ifs with h1 h2
    · norm_num
    · norm_num
    · obtain ⟨hz, ho⟩ := bounds A B h1 h2
      linarith
  · rw [calculateSimilarity_formula]
    split_ifs with h1 h2
    · norm_num
    · norm_num
    · obtain ⟨hz, ho⟩ := bounds A B h1 h2
      linarith
  · rw [calculateSimilarity_formula A B, calculateSimilarity_formula B A,
      lev_symm A.data B.data, Nat.max_comm A.length B.length]
    simp [and_comm, or_comm]
